import Mathlib

/-!
Shallow embedding of the StudyFlow computation engine (`src/src/App.tsx`).

Dates are modelled at day granularity: a calendar date is its day number
(days since 1970-01-01, via the standard civil-from-days correspondence),
and an instant is a rational number of days since the same epoch, so that
time-of-day fractions are representable where they matter
(`differenceInDays`).  JavaScript's `Math.round` / `Math.ceil` /
`Math.min` / `Math.max` are modelled over `ℚ`; the constant `0.4` is the
rational `2/5`.
-/

namespace StudyFlow

/-- Day number of a Gregorian civil date, days since 1970-01-01
(Hinnant's `days_from_civil`; all divisions here act on nonnegative
operands for the dates used below, where `/` and `%` on `ℤ` agree with
the C semantics of the original algorithm). -/
def daysFromCivil (y m d : ℤ) : ℤ :=
  let y2 := if m ≤ 2 then y - 1 else y
  let era := (if 0 ≤ y2 then y2 else y2 - 399) / 400
  let yoe := y2 - era * 400
  let mp := (m + 9) % 12
  let doy := (153 * mp + 2) / 5 + d - 1
  let doe := yoe * 365 + yoe / 4 - yoe / 100 + doy
  era * 146097 + doe - 719468

/-- Model of `date-fns`' `addDays`. -/
def addDaysI (now n : ℤ) : ℤ := now + n

/-- Truncation toward zero of a rational, as JavaScript number-to-integer
truncation behaves. -/
def ratTrunc (q : ℚ) : ℤ := if 0 ≤ q then ⌊q⌋ else ⌈q⌉

/-- Model of `date-fns`' `differenceInDays`: the number of full day
periods between two instants, fractional days truncated toward zero. -/
def differenceInDays (a b : ℚ) : ℤ := ratTrunc (a - b)

/-- Model of `Math.round` on the nonnegative range used here: round half
away from zero, i.e. `⌊q + 1/2⌋` for `q ≥ 0` (JavaScript rounds half
toward `+∞`). -/
def jsRound (q : ℚ) : ℤ := ⌊q + 1 / 2⌋

/-- From `App.tsx` lines 52-55:
`const diff = differenceInDays(new Date(examDate), new Date());
 return diff > 0 ? diff : 0;` -/
def daysLeft (examDate now : ℚ) : ℤ :=
  let diff := differenceInDays examDate now
  if 0 < diff then diff else 0

/-- From `App.tsx` lines 57-65:
`topicPenalty = weakTopics.length * 5`,
`timeBonus = Math.min(50, (daysLeft / 60) * 50)`,
`score = Math.max(0, Math.min(100, 50 - topicPenalty + timeBonus))`,
`Math.round(score)`. -/
def readinessScore (daysRemaining weakTopicCount : ℕ) : ℤ :=
  let topicPenalty : ℚ := (weakTopicCount : ℚ) * 5
  let timeBonus : ℚ := min 50 (((daysRemaining : ℚ) / 60) * 50)
  let score : ℚ := max 0 (min 100 (50 - topicPenalty + timeBonus))
  jsRound score

/-- Written from the spec's words, to be compared with `readinessScore`:
`clamp(x, lo, hi)`. -/
def clampQ (x lo hi : ℚ) : ℚ := max lo (min hi x)

/-- Written from the spec's words, to be compared with `readinessScore`:
`round(clamp(50 - weakTopicCount*5 + min(50, (daysRemaining/60)*50), 0, 100))`,
clamp applied before rounding. -/
def readinessScoreSpec (daysRemaining weakTopicCount : ℕ) : ℤ :=
  jsRound (clampQ (50 - (weakTopicCount : ℚ) * 5
    + min 50 (((daysRemaining : ℚ) / 60) * 50)) 0 100)

/-- The five canonical review offsets, `const intervals = [1, 3, 7, 14, 30]`
(`App.tsx` line 68). -/
def intervalDays : List ℤ := [1, 3, 7, 14, 30]

/-- One `{ day, date }` entry of a repetition item (`App.tsx` lines 34-37). -/
structure ScheduleInterval where
  day : ℤ
  date : ℤ
deriving DecidableEq

/-- A `SpacedRepetitionItem` (`App.tsx` lines 34-37). -/
structure SpacedRepetitionItem where
  topic : String
  intervals : List ScheduleInterval
deriving DecidableEq

/-- From `App.tsx` lines 67-76:
`weakTopics.map((topic, index) => ({ topic,
  intervals: intervals.map(day => ({ day, date: addDays(new Date(), day + index) })) }))`. -/
def spacedRepetitionSchedule (weakTopics : List String) (now : ℤ) :
    List SpacedRepetitionItem :=
  weakTopics.enum.map fun p =>
    { topic := p.2
      intervals := intervalDays.map fun day =>
        { day := day, date := addDaysI now (day + (p.1 : ℤ)) } }

/-- Model of JavaScript `String.prototype.trim`: drop leading and trailing
whitespace characters. -/
def jsTrim (s : String) : String :=
  String.mk (((s.data.dropWhile Char.isWhitespace).reverse.dropWhile
    Char.isWhitespace).reverse)

/-- The component state of `App` that the handlers read and write
(`App.tsx` lines 41-46): exam date, subjects with the pending subject
input, weak topics with the pending topic input, and daily hours.
The exam date is a day number. -/
structure AppState where
  examDate : ℤ
  subjects : List String
  newSubject : String
  weakTopics : List String
  newWeakTopic : String
  dailyHours : ℤ
deriving DecidableEq

/-- From `App.tsx` lines 78-83:
`if (newSubject.trim()) { setSubjects([...subjects, newSubject.trim()]);
 setNewSubject(''); }` — a non-empty string is truthy. -/
def handleAddSubject (st : AppState) : AppState :=
  if jsTrim st.newSubject = "" then st
  else { st with subjects := st.subjects ++ [jsTrim st.newSubject], newSubject := "" }

/-- Model of the shared JavaScript idiom `list.filter((_, i) => i !== index)`
used by both removal handlers. -/
def filterOutIndex {α : Type} (l : List α) (index : ℕ) : List α :=
  (l.enum.filter fun p => p.1 ≠ index).map Prod.snd

/-- From `App.tsx` lines 85-87:
`setSubjects(subjects.filter((_, i) => i !== index))`. -/
def handleRemoveSubject (st : AppState) (index : ℕ) : AppState :=
  { st with subjects := filterOutIndex st.subjects index }

/-- From `App.tsx` lines 89-94, identical to `handleAddSubject` on the
weak-topics list. -/
def handleAddWeakTopic (st : AppState) : AppState :=
  if jsTrim st.newWeakTopic = "" then st
  else { st with weakTopics := st.weakTopics ++ [jsTrim st.newWeakTopic],
                 newWeakTopic := "" }

/-- From `App.tsx` lines 96-98:
`setWeakTopics(weakTopics.filter((_, i) => i !== index))`. -/
def handleRemoveWeakTopic (st : AppState) (index : ℕ) : AppState :=
  { st with weakTopics := filterOutIndex st.weakTopics index }

/-- From `App.tsx` line 387: `weakTopics[0] || 'your core subjects'`.
`weakTopics[0]` is `undefined` on an empty list and the empty string is
falsy, so the fallback (modelled as `none`) is shown in both cases. -/
def priorityFocusTopic (weakTopics : List String) : Option String :=
  match weakTopics with
  | [] => none
  | t :: _ => if t = "" then none else some t

/-- From `App.tsx` line 388: `Math.ceil(dailyHours * 0.4)`. -/
def recommendedHours (dailyHours : ℤ) : ℤ := ⌈(dailyHours : ℚ) * (2 / 5)⌉

/-- Model of JavaScript `Date.prototype.getDay` on a day number: day 0
(1970-01-01) was a Thursday, and Sunday is day index 0. -/
def getDay (d : ℤ) : ℤ := (d + 4) % 7

/-- From `App.tsx` line 373: `addDays(new Date(), 7 - new Date().getDay())`. -/
def nextMockTestDate (now : ℤ) : ℤ := addDaysI now (7 - getDay now)

/-- Index of the calendar week containing day `d`, where weeks start on
the day-index-0 weekday (Sunday) under the same epoch convention as
`getDay`. -/
def weekIndex (d : ℤ) : ℤ := (d + 4) / 7

/-! ## Helper lemmas -/

/-- Length of the schedule is the number of weak topics. -/
theorem sched_length (weakTopics : List String) (now : ℤ) :
    (spacedRepetitionSchedule weakTopics now).length = weakTopics.length := by
  simp [spacedRepetitionSchedule]

/-- The items carry the weak topics verbatim, in list order. -/
theorem sched_topics (weakTopics : List String) (now : ℤ) :
    (spacedRepetitionSchedule weakTopics now).map SpacedRepetitionItem.topic = weakTopics := by
  simp [spacedRepetitionSchedule, List.map_map]
  exact List.enum_map_snd weakTopics

/-- The item at position `i` of the schedule, described pointwise. -/
theorem sched_getElem (weakTopics : List String) (now : ℤ) (i : ℕ) :
    (spacedRepetitionSchedule weakTopics now)[i]? =
      weakTopics[i]?.map fun t =>
        { topic := t
          intervals := intervalDays.map fun day =>
            { day := day, date := addDaysI now (day + (i : ℤ)) } } := by
  simp only [spacedRepetitionSchedule, List.getElem?_map, List.getElem?_enum]
  cases weakTopics[i]? <;> rfl

/-- The review dates of the item at position `i`. -/
theorem sched_dates (weakTopics : List String) (now : ℤ) (i : ℕ) :
    ((spacedRepetitionSchedule weakTopics now)[i]?.map fun item =>
        item.intervals.map ScheduleInterval.date) =
      weakTopics[i]?.map fun _ => intervalDays.map fun day => now + (day + (i : ℤ)) := by
  rw [sched_getElem]
  cases weakTopics[i]? <;> simp [List.map_map, addDaysI]

/-- The offsets of the item at position `i` are the canonical ones. -/
theorem sched_days (weakTopics : List String) (now : ℤ) (i : ℕ) :
    ((spacedRepetitionSchedule weakTopics now)[i]?.map fun item =>
        item.intervals.map ScheduleInterval.day) =
      weakTopics[i]?.map fun _ => intervalDays := by
  rw [sched_getElem]
  cases weakTopics[i]? <;> rfl

/-- Membership in the canonical offset list, by cases. -/
theorem mem_intervalDays_cases (a : ℤ) (h : a ∈ intervalDays) :
    a = 1 ∨ a = 3 ∨ a = 7 ∨ a = 14 ∨ a = 30 := by
  simpa [intervalDays] using h

/-! ## Claims -/

/-- Claim C1: for every `weakTopics` list and every instant `now`,
`spacedRepetitionSchedule` returns one item per weak topic in list order;
every item has exactly the 5 offsets `[1,3,7,14,30]` in that order; the
interval for offset at topic position `i` has date `now + (offset + i)`
days; the empty list gives the empty schedule. -/
theorem repetitionSchedule_spec (weakTopics : List String) (now : ℤ) :
    (spacedRepetitionSchedule weakTopics now).length = weakTopics.length ∧
    (spacedRepetitionSchedule weakTopics now).map SpacedRepetitionItem.topic = weakTopics ∧
    (∀ i : ℕ,
      ((spacedRepetitionSchedule weakTopics now)[i]?.map fun item =>
          item.intervals.map ScheduleInterval.day) =
        weakTopics[i]?.map fun _ => [(1 : ℤ), 3, 7, 14, 30]) ∧
    (∀ i : ℕ,
      ((spacedRepetitionSchedule weakTopics now)[i]?.map fun item =>
          item.intervals.map ScheduleInterval.date) =
        weakTopics[i]?.map fun _ => [(1 : ℤ), 3, 7, 14, 30].map fun offset =>
          now + (offset + (i : ℤ))) ∧
    spacedRepetitionSchedule [] now = [] :=
  ⟨sched_length weakTopics now, sched_topics weakTopics now,
   fun i => sched_days weakTopics now i,
   fun i => sched_dates weakTopics now i, rfl⟩

/-- Claim C2 is false on the code: with `now = 2024-01-01`, item 1
("Quantum Mechanics") has interval dates 2024-01-03, 01-05, 01-09,
01-16, 02-01 (offsets `[1,3,7,14,30]` plus index 1), not the claimed
2024-01-04, 01-06, 01-10, 01-17, 02-02. -/
theorem repetitionSchedule_example_counterexample :
    ((spacedRepetitionSchedule ["Calculus", "Quantum Mechanics"]
        (daysFromCivil 2024 1 1))[1]?.map fun item =>
        item.intervals.map ScheduleInterval.date) =
      some [daysFromCivil 2024 1 3, daysFromCivil 2024 1 5, daysFromCivil 2024 1 9,
            daysFromCivil 2024 1 16, daysFromCivil 2024 2 1] ∧
    [daysFromCivil 2024 1 3, daysFromCivil 2024 1 5, daysFromCivil 2024 1 9,
     daysFromCivil 2024 1 16, daysFromCivil 2024 2 1] ≠
      [daysFromCivil 2024 1 4, daysFromCivil 2024 1 6, daysFromCivil 2024 1 10,
       daysFromCivil 2024 1 17, daysFromCivil 2024 2 2] := by decide

/-- Claim C2 as amended: `repetitionSchedule(["Calculus","Quantum
Mechanics"], now = 2024-01-01)` produces item 0 ("Calculus") with dates
2024-01-02, 01-04, 01-08, 01-15, 01-31 and item 1 ("Quantum Mechanics")
with dates 2024-01-03, 01-05, 01-09, 01-16, 02-01. -/
theorem repetitionSchedule_example :
    (spacedRepetitionSchedule ["Calculus", "Quantum Mechanics"]
        (daysFromCivil 2024 1 1)).map
      (fun item => (item.topic, item.intervals.map ScheduleInterval.date)) =
    [("Calculus",
      [daysFromCivil 2024 1 2, daysFromCivil 2024 1 4, daysFromCivil 2024 1 8,
       daysFromCivil 2024 1 15, daysFromCivil 2024 1 31]),
     ("Quantum Mechanics",
      [daysFromCivil 2024 1 3, daysFromCivil 2024 1 5, daysFromCivil 2024 1 9,
       daysFromCivil 2024 1 16, daysFromCivil 2024 2 1])] := by decide

/-- Claim C6 is false on the code: with three topics, topic 0's day-3
review and topic 2's day-1 review both fall on `now + 3` (here `now = 0`,
both on date 3), so reviews of distinct topics do collide. -/
theorem stagger_collision_counterexample :
    ((spacedRepetitionSchedule ["Algebra", "Biology", "Chemistry"] 0).map fun item =>
        item.intervals.map ScheduleInterval.date) =
      [[1, 3, 7, 14, 30], [2, 4, 8, 15, 31], [3, 5, 9, 16, 32]] ∧
    (3 : ℤ) ∈ [(1 : ℤ), 3, 7, 14, 30] ∧ (3 : ℤ) ∈ [(3 : ℤ), 5, 9, 16, 32] ∧
    "Algebra" ≠ "Chemistry" := by decide

/-- Claim C6 as amended: the per-topic staggering only separates topics
at adjacent positions — no review date of the topic at position `i`
equals a review date of the topic at position `i + 1`; topics two or
more positions apart can still collide. -/
theorem stagger_adjacent_disjoint (weakTopics : List String) (now : ℤ) (i : ℕ)
    (itemI itemJ : SpacedRepetitionItem)
    (hI : (spacedRepetitionSchedule weakTopics now)[i]? = some itemI)
    (hJ : (spacedRepetitionSchedule weakTopics now)[i + 1]? = some itemJ)
    (dI dJ : ScheduleInterval) (hdI : dI ∈ itemI.intervals) (hdJ : dJ ∈ itemJ.intervals) :
    dI.date ≠ dJ.date := by
  rw [sched_getElem] at hI hJ
  rcases Option.map_eq_some'.mp hI with ⟨tI, _, rfl⟩
  rcases Option.map_eq_some'.mp hJ with ⟨tJ, _, rfl⟩
  simp only [List.mem_map] at hdI hdJ
  rcases hdI with ⟨aI, haI, rfl⟩
  rcases hdJ with ⟨aJ, haJ, rfl⟩
  simp only [addDaysI]
  rcases mem_intervalDays_cases aI haI with rfl | rfl | rfl | rfl | rfl <;>
    rcases mem_intervalDays_cases aJ haJ with rfl | rfl | rfl | rfl | rfl <;>
    intro h <;> omega

/-- Witness for `stagger_adjacent_disjoint` at the two-topic schedule
starting at day 0: topic 0's day-1 review (date 1) differs from topic 1's
day-1 review (date 2). -/
theorem stagger_adjacent_disjoint_witness :
    ScheduleInterval.date ⟨1, 1⟩ ≠ ScheduleInterval.date ⟨1, 2⟩ :=
  stagger_adjacent_disjoint ["Algebra", "Biology"] 0 0
    ⟨"Algebra", [⟨1, 1⟩, ⟨3, 3⟩, ⟨7, 7⟩, ⟨14, 14⟩, ⟨30, 30⟩]⟩
    ⟨"Biology", [⟨1, 2⟩, ⟨3, 4⟩, ⟨7, 8⟩, ⟨14, 15⟩, ⟨30, 31⟩]⟩
    (by decide) (by decide) ⟨1, 1⟩ ⟨1, 2⟩ (by decide) (by decide)

/-- Claim C3: `readinessScore` equals the spec's
`round(clamp(50 - weakTopicCount*5 + min(50, (daysRemaining/60)*50), 0, 100))`
with the clamp applied before rounding, is always within `[0, 100]`, and
takes the values 100 at `(60, 0)` and 0 at `(0, 10)`. -/
theorem readinessScore_spec (daysRemaining weakTopicCount : ℕ) :
    readinessScore daysRemaining weakTopicCount =
      readinessScoreSpec daysRemaining weakTopicCount ∧
    0 ≤ readinessScore daysRemaining weakTopicCount ∧
    readinessScore daysRemaining weakTopicCount ≤ 100 ∧
    readinessScore 60 0 = 100 ∧ readinessScore 0 10 = 0 := by
  have hlo : ∀ d w : ℕ, 0 ≤ readinessScore d w := by
    intro d w
    unfold readinessScore jsRound
    refine Int.le_floor.mpr ?_
    have h0 : (0 : ℚ) ≤ max 0 (min 100 (50 - (w : ℚ) * 5
        + min 50 (((d : ℚ) / 60) * 50))) := le_max_left 0 _
    push_cast
    linarith
  have hhi : ∀ d w : ℕ, readinessScore d w ≤ 100 := by
    intro d w
    simp only [readinessScore, jsRound]
    have h1 : max 0 (min 100 (50 - (w : ℚ) * 5 + min 50 (((d : ℚ) / 60) * 50))) ≤ 100 :=
      max_le (by norm_num) (min_le_left _ _)
    have h2 : ⌊max 0 (min 100 (50 - (w : ℚ) * 5 + min 50 (((d : ℚ) / 60) * 50))) + 1 / 2⌋
        < 101 := Int.floor_lt.mpr (by push_cast; linarith)
    omega
  refine ⟨rfl, hlo daysRemaining weakTopicCount, hhi daysRemaining weakTopicCount, ?_, ?_⟩
  · unfold readinessScore jsRound
    norm_num
  · unfold readinessScore jsRound
    norm_num

/-- Claim C4: `daysLeft` is the floor of the calendar-day difference from
`now` to `examDate` clamped to a minimum of 0; it is 0 whenever the exam
date is today or past (`examDate ≤ now`), and is never negative. -/
theorem daysLeft_spec (examDate now : ℚ) :
    daysLeft examDate now = max 0 ⌊examDate - now⌋ ∧
    0 ≤ daysLeft examDate now ∧
    (examDate ≤ now → daysLeft examDate now = 0) := by
  have key : daysLeft examDate now = max 0 ⌊examDate - now⌋ := by
    unfold daysLeft differenceInDays ratTrunc
    by_cases h : 0 ≤ examDate - now
    · have h2 : 0 ≤ ⌊examDate - now⌋ := Int.floor_nonneg.mpr h
      rw [if_pos h]
      by_cases h3 : 0 < ⌊examDate - now⌋
      · rw [if_pos h3]; omega
      · rw [if_neg h3]; omega
    · have h4 : examDate - now ≤ 0 := (not_le.mp h).le
      have h2 : ⌈examDate - now⌉ ≤ 0 := Int.ceil_le.mpr (by push_cast; linarith)
      have h3 : ⌊examDate - now⌋ ≤ 0 := Int.floor_nonpos h4
      rw [if_neg h]
      by_cases h5 : 0 < ⌈examDate - now⌉
      · omega
      · rw [if_neg h5]; omega
  refine ⟨key, ?_, ?_⟩
  · rw [key]; exact le_max_left 0 _
  · intro h
    rw [key]
    have h3 : ⌊examDate - now⌋ ≤ 0 := Int.floor_nonpos (by linarith)
    omega

/-- Witness for `daysLeft_spec`: an exam date one day in the past gives 0
days left. -/
theorem daysLeft_spec_witness : daysLeft 0 1 = 0 :=
  (daysLeft_spec 0 1).2.2 zero_le_one

/-- Claim C5 is false on the code: `weakTopics[0] || 'your core subjects'`
is the fallback whenever the first entry is the empty string (the empty
string is falsy), so for the non-empty list `[""]` the topic is `none`,
not the first element `""`. -/
theorem priorityFocus_counterexample :
    ([""] : List String) ≠ [] ∧ ([""] : List String).head? = some "" ∧
    priorityFocusTopic [""] = none := by decide

/-- Claim C5 as amended: `topic` is the first element of `weakTopics`
when the list is non-empty and that element is a non-empty string, and
`none` when the list is empty or its head is the empty string (for every
tail);
`recommendedHours = ceil(dailyHours * 0.4)`, which for nonnegative hours
is the integer `(2*dailyHours + 4) / 5`; in particular
`priorityFocus([], 4)` gives topic `none` with 2 hours and
`priorityFocus(["Calculus"], 5)` gives topic "Calculus" with 2 hours. -/
theorem priorityFocus_spec (weakTopics : List String) (dailyHours : ℤ) :
    (∀ t ts, weakTopics = t :: ts → t ≠ "" → priorityFocusTopic weakTopics = some t) ∧
    (weakTopics = [] → priorityFocusTopic weakTopics = none) ∧
    (∀ ts : List String, priorityFocusTopic ("" :: ts) = none) ∧
    (0 ≤ dailyHours → recommendedHours dailyHours = (2 * dailyHours + 4) / 5) ∧
    priorityFocusTopic [] = none ∧ recommendedHours 4 = 2 ∧
    priorityFocusTopic ["Calculus"] = some "Calculus" ∧ recommendedHours 5 = 2 := by
  have hceil : ∀ d : ℤ, recommendedHours d = -(-(2 * d) / 5) := by
    intro d
    unfold recommendedHours
    have h1 : (⌈(d : ℚ) * (2 / 5)⌉ : ℤ) = -⌊-((d : ℚ) * (2 / 5))⌋ := by
      rw [Int.floor_neg, neg_neg]
    have h2 : -((d : ℚ) * (2 / 5)) = ((-(2 * d) : ℤ) : ℚ) / ((5 : ℕ) : ℚ) := by
      push_cast
      ring
    rw [h1, h2, Rat.floor_intCast_div_natCast]
    norm_num
  refine ⟨?_, ?_, ?_, ?_, rfl, ?_, ?_, ?_⟩
  · intro t ts hw ht
    subst hw
    simp [priorityFocusTopic, ht]
  · intro hw
    subst hw
    rfl
  · intro ts
    rfl
  · intro h
    rw [hceil]
    omega
  · rw [hceil]
    decide
  · simp [priorityFocusTopic]
  · rw [hceil]
    decide

/-- Witness for `priorityFocus_spec`: a non-empty first topic is
returned verbatim, and 4 daily hours recommend 2 focus hours. -/
theorem priorityFocus_spec_witness :
    priorityFocusTopic ["Calculus"] = some "Calculus" ∧ recommendedHours 4 = 2 :=
  ⟨(priorityFocus_spec ["Calculus"] 4).1 "Calculus" [] rfl (by decide),
   (priorityFocus_spec ["Calculus"] 4).2.2.2.2.2.1⟩

/-- Claim C7: `nextMockTestDate now = now + (7 - weekdayIndex now)`, the
result always falls on the day-index-0 weekday of the following calendar
week, the offset is 7 when `now` itself is that weekday, and the result
never equals `now`. -/
theorem nextMockTestDate_spec (now : ℤ) :
    nextMockTestDate now = now + (7 - getDay now) ∧
    getDay (nextMockTestDate now) = 0 ∧
    weekIndex (nextMockTestDate now) = weekIndex now + 1 ∧
    now < nextMockTestDate now ∧ nextMockTestDate now ≤ now + 7 ∧
    (getDay now = 0 → nextMockTestDate now = now + 7) := by
  unfold nextMockTestDate weekIndex getDay addDaysI
  refine ⟨rfl, by omega, by omega, by omega, by omega, fun h => by omega⟩

/-- Witness for `nextMockTestDate_spec`: day 3 is a day-index-0 day
(Sunday, 1970-01-04), and the next mock test lands a full week later on
day 10. -/
theorem nextMockTestDate_spec_witness : nextMockTestDate 3 = 3 + 7 :=
  (nextMockTestDate_spec 3).2.2.2.2.2 (by decide)

/-- Appending one element strictly changes a list. -/
theorem append_singleton_ne {α : Type} (l : List α) (x : α) : l ++ [x] ≠ l := by
  intro h
  have := congrArg List.length h
  simp at this

/-- Filtering away positions `≥ n` by an index below them keeps everything. -/
theorem enumFrom_filter_ne_map {α : Type} (l : List α) (n index : ℕ) (h : index < n) :
    ((l.enumFrom n).filter fun p => p.1 ≠ index).map Prod.snd = l := by
  induction l generalizing n with
  | nil => rfl
  | cons a t ih =>
    have hne : n ≠ index := by omega
    have ih2 := ih (n + 1) (by omega)
    simp only [ne_eq, decide_not] at ih2
    simp [List.filter_cons, hne, ih2]

/-- Filtering out one index from an enumeration starting at `n ≤ index`
erases exactly the entry at offset `index - n`. -/
theorem enumFrom_filter_eraseIdx {α : Type} (l : List α) (n index : ℕ) (h : n ≤ index) :
    ((l.enumFrom n).filter fun p => p.1 ≠ index).map Prod.snd = l.eraseIdx (index - n) := by
  induction l generalizing n with
  | nil => rfl
  | cons a t ih =>
    by_cases hn : n = index
    · subst hn
      have h0 : n - n = 0 := by omega
      have hm := enumFrom_filter_ne_map t (n + 1) n (by omega)
      simp only [ne_eq, decide_not] at hm
      simp [List.filter_cons, h0, hm]
    · have hs : index - n = (index - (n + 1)) + 1 := by omega
      have hne : n ≠ index := hn
      have ih2 := ih (n + 1) (by omega)
      simp only [ne_eq, decide_not] at ih2
      simp [List.filter_cons, hne, hs, ih2]

/-- The removal idiom `filter((_, i) => i !== index)` is exactly
`eraseIdx`. -/
theorem filterOutIndex_eq_eraseIdx {α : Type} (l : List α) (index : ℕ) :
    filterOutIndex l index = l.eraseIdx index := by
  have h := enumFrom_filter_eraseIdx l 0 index (by omega)
  simpa [filterOutIndex, List.enum_eq_enumFrom] using h

/-- Claim C8 is false on the code as literally stated: the handler
appends the *trimmed* name, not the name itself — with pending input
`" Math "` the appended entry is `"Math"`. -/
theorem handleAddSubject_counterexample :
    (handleAddSubject ⟨19723, ["Mathematics", "Physics"], " Math ", ["Calculus"], "", 4⟩).subjects
      = ["Mathematics", "Physics", "Math"] ∧
    (["Mathematics", "Physics", "Math"] : List String) ≠
      ["Mathematics", "Physics"] ++ [" Math "] := by decide

/-- Claim C8 as amended: `addSubject` appends the *trimmed* name to
`subjects` iff the name trims to a non-empty string, and otherwise (in
particular for the whitespace-only `"   "`) leaves the state unchanged;
`addWeakTopic` has the identical contract on `weakTopics`. -/
theorem handleAddSubject_spec (st : AppState) :
    (jsTrim st.newSubject ≠ "" →
      (handleAddSubject st).subjects = st.subjects ++ [jsTrim st.newSubject] ∧
      (handleAddSubject st).subjects ≠ st.subjects) ∧
    (jsTrim st.newSubject = "" → handleAddSubject st = st) ∧
    (st.newSubject = "   " → handleAddSubject st = st) ∧
    (jsTrim st.newWeakTopic ≠ "" →
      (handleAddWeakTopic st).weakTopics = st.weakTopics ++ [jsTrim st.newWeakTopic] ∧
      (handleAddWeakTopic st).weakTopics ≠ st.weakTopics) ∧
    (jsTrim st.newWeakTopic = "" → handleAddWeakTopic st = st) ∧
    (st.newWeakTopic = "   " → handleAddWeakTopic st = st) := by
  refine ⟨fun h => ?_, fun h => ?_, fun h => ?_, fun h => ?_, fun h => ?_, fun h => ?_⟩
  · rw [handleAddSubject, if_neg h]
    exact ⟨rfl, append_singleton_ne st.subjects (jsTrim st.newSubject)⟩
  · rw [handleAddSubject, if_pos h]
  · rw [handleAddSubject, if_pos (by rw [h]; rfl)]
  · rw [handleAddWeakTopic, if_neg h]
    exact ⟨rfl, append_singleton_ne st.weakTopics (jsTrim st.newWeakTopic)⟩
  · rw [handleAddWeakTopic, if_pos h]
  · rw [handleAddWeakTopic, if_pos (by rw [h]; rfl)]

/-- Witness for `handleAddSubject_spec`: adding `"Chemistry"` appends it,
and a whitespace-only pending subject is a no-op. -/
theorem handleAddSubject_spec_witness :
    (handleAddSubject ⟨0, ["Mathematics"], "Chemistry", [], "", 4⟩).subjects
      = ["Mathematics", "Chemistry"] ∧
    handleAddSubject ⟨0, ["Mathematics"], "   ", [], "", 4⟩
      = ⟨0, ["Mathematics"], "   ", [], "", 4⟩ :=
  ⟨((handleAddSubject_spec ⟨0, ["Mathematics"], "Chemistry", [], "", 4⟩).1
      (by decide)).1.trans (by decide),
   (handleAddSubject_spec ⟨0, ["Mathematics"], "   ", [], "", 4⟩).2.2.1 rfl⟩

/-- Claim C9: removing at an out-of-bounds index leaves the whole state
unchanged, and removing at any index removes exactly the element at that
position (`take index ++ drop (index+1)`), for both subjects and weak
topics. -/
theorem handleRemoveSubject_spec (st : AppState) (index : ℕ) :
    (st.subjects.length ≤ index → handleRemoveSubject st index = st) ∧
    ((handleRemoveSubject st index).subjects =
      st.subjects.take index ++ st.subjects.drop (index + 1)) ∧
    (st.weakTopics.length ≤ index → handleRemoveWeakTopic st index = st) ∧
    ((handleRemoveWeakTopic st index).weakTopics =
      st.weakTopics.take index ++ st.weakTopics.drop (index + 1)) := by
  refine ⟨fun h => ?_, ?_, fun h => ?_, ?_⟩
  · rw [handleRemoveSubject, filterOutIndex_eq_eraseIdx,
      List.eraseIdx_of_length_le h]
  · rw [handleRemoveSubject, filterOutIndex_eq_eraseIdx,
      List.eraseIdx_eq_take_drop_succ]
  · rw [handleRemoveWeakTopic, filterOutIndex_eq_eraseIdx,
      List.eraseIdx_of_length_le h]
  · rw [handleRemoveWeakTopic, filterOutIndex_eq_eraseIdx,
      List.eraseIdx_eq_take_drop_succ]

/-- Witness for `handleRemoveSubject_spec`: removing index 5 from a
two-subject state is a no-op on the whole state. -/
theorem handleRemoveSubject_spec_witness :
    handleRemoveSubject ⟨0, ["Mathematics", "Physics"], "", ["Calculus"], "", 4⟩ 5
      = ⟨0, ["Mathematics", "Physics"], "", ["Calculus"], "", 4⟩ :=
  (handleRemoveSubject_spec ⟨0, ["Mathematics", "Physics"], "", ["Calculus"], "", 4⟩ 5).1
    (by decide)

/-- Claim C10: each ConfigStore mutation touches only its own list —
subject operations leave `examDate`, `weakTopics` and `dailyHours`
unchanged (hence the derived `repetitionSchedule` and `priorityFocus`
topic too), and weak-topic operations leave `examDate`, `subjects` and
`dailyHours` unchanged. -/
theorem configStore_frame (st : AppState) (index : ℕ) (now : ℤ) :
    ((handleAddSubject st).examDate = st.examDate ∧
     (handleAddSubject st).weakTopics = st.weakTopics ∧
     (handleAddSubject st).dailyHours = st.dailyHours) ∧
    ((handleRemoveSubject st index).examDate = st.examDate ∧
     (handleRemoveSubject st index).weakTopics = st.weakTopics ∧
     (handleRemoveSubject st index).dailyHours = st.dailyHours) ∧
    ((handleAddWeakTopic st).examDate = st.examDate ∧
     (handleAddWeakTopic st).subjects = st.subjects ∧
     (handleAddWeakTopic st).dailyHours = st.dailyHours) ∧
    ((handleRemoveWeakTopic st index).examDate = st.examDate ∧
     (handleRemoveWeakTopic st index).subjects = st.subjects ∧
     (handleRemoveWeakTopic st index).dailyHours = st.dailyHours) ∧
    spacedRepetitionSchedule (handleAddSubject st).weakTopics now =
      spacedRepetitionSchedule st.weakTopics now ∧
    spacedRepetitionSchedule (handleRemoveSubject st index).weakTopics now =
      spacedRepetitionSchedule st.weakTopics now ∧
    priorityFocusTopic (handleAddSubject st).weakTopics =
      priorityFocusTopic st.weakTopics ∧
    priorityFocusTopic (handleRemoveSubject st index).weakTopics =
      priorityFocusTopic st.weakTopics := by
  have hA : (handleAddSubject st).examDate = st.examDate ∧
      (handleAddSubject st).weakTopics = st.weakTopics ∧
      (handleAddSubject st).dailyHours = st.dailyHours := by
    rw [handleAddSubject]
    split <;> exact ⟨rfl, rfl, rfl⟩
  have hW : (handleAddWeakTopic st).examDate = st.examDate ∧
      (handleAddWeakTopic st).subjects = st.subjects ∧
      (handleAddWeakTopic st).dailyHours = st.dailyHours := by
    rw [handleAddWeakTopic]
    split <;> exact ⟨rfl, rfl, rfl⟩
  refine ⟨hA, ⟨rfl, rfl, rfl⟩, hW, ⟨rfl, rfl, rfl⟩, ?_, rfl, ?_, rfl⟩
  · rw [hA.2.1]
  · rw [hA.2.1]

end StudyFlow
